import Mathlib

/-!
Verification of the Questlab upload-validation and rate-limiting layer.

Shallow embedding of:
  * `app/utils/rate_limit.py`   — in-memory sliding-window rate limiter
  * `app/utils/security.py`     — upload content validator and filename helpers
  * `app/services/file_service.py` — `FileService.validate_file_size`

Python floats (timestamps from `time.time()`) are modelled as rationals,
Python ints as `Int` (or `Nat` where the source value is a length), byte
strings as `List Nat` of byte values, and text strings as `List Char`.
A file-like stream is modelled as a byte list with a read position and a
flag marking an unreadable stream (whose `read()` raises).
-/

namespace Questlab

namespace RateLimit

/-- Timestamps as returned by `time.time()` are modelled as rationals. -/
abbrev Time := ℚ

/-- Embedding of `_prune(bucket, window, now)` from `rate_limit.py`:
`while bucket and bucket[0] < now - window: bucket.popleft()`.
The deque is the list, `popleft` removes the head. -/
def prune (window now : Time) : List Time → List Time
  | [] => []
  | t :: rest => if t < now - window then prune window now rest else t :: rest

/-- Embedding of `check_rate_limit(key, limit, window)` acting on the given
key's bucket (`_buckets[key]`, a `defaultdict(deque)` entry, initially `[]`).
Returns the decision together with the key's new bucket. -/
def check_rate_limit (bucket : List Time) (limit : ℤ) (window now : Time) :
    Bool × List Time :=
  let b := prune window now bucket
  if (b.length : ℤ) ≥ limit then (false, b)
  else (true, b ++ [now])

/-- Embedding of `remaining(key, limit, window)` acting on the given key's
bucket: prunes, then returns `max(0, limit - len(bucket))` and the (pruned)
bucket left in the store. -/
def remaining (bucket : List Time) (limit : ℤ) (window now : Time) :
    ℤ × List Time :=
  let b := prune window now bucket
  (max 0 (limit - (b.length : ℤ)), b)

/-- Embedding of `record_failure(key, window)` acting on the given key's
bucket: prunes, appends `now`, and returns `len(bucket)` with the new bucket. -/
def record_failure (bucket : List Time) (window now : Time) : ℤ × List Time :=
  let b := prune window now bucket ++ [now]
  ((b.length : ℤ), b)

/-- Iterated calls to `check_rate_limit` on one key: the i-th call happens at
the i-th time in `times`; returns the list of decisions and the final bucket. -/
def run_checks (limit : ℤ) (window : Time) (bucket : List Time) :
    List Time → List Bool × List Time
  | [] => ([], bucket)
  | now :: rest =>
    match check_rate_limit bucket limit window now with
    | (r, b1) =>
      match run_checks limit window b1 rest with
      | (rs, bf) => (r :: rs, bf)

/-- Deque indexing `bucket[0]`, which raises IndexError on an empty deque. -/
def dequeHead : List Time → Except String Time
  | [] => .error "IndexError"
  | t :: _ => .ok t

/-- Deque `popleft()`, which raises IndexError on an empty deque. -/
def dequePopleft : List Time → Except String (List Time)
  | [] => .error "IndexError"
  | _ :: rest => .ok rest

/-- Exception-aware `_prune`: the loop guard `bucket and bucket[0] < now - window`
short-circuits, so the deque is indexed and popped only when nonempty
(`popleft` of the nonempty deque `t :: rest` yields `rest`). -/
def pruneE (window now : Time) : List Time → Except String (List Time)
  | [] => .ok []
  | t :: rest =>
    match dequeHead (t :: rest) with
    | .error e => .error e
    | .ok t0 =>
      if t0 < now - window then
        match dequePopleft (t :: rest) with
        | .error e => .error e
        | .ok _ => pruneE window now rest
      else .ok (t :: rest)

/-- Exception-aware `check_rate_limit`, propagating any error from pruning. -/
def check_rate_limitE (bucket : List Time) (limit : ℤ) (window now : Time) :
    Except String (Bool × List Time) :=
  match pruneE window now bucket with
  | .error e => .error e
  | .ok b => if (b.length : ℤ) ≥ limit then .ok (false, b) else .ok (true, b ++ [now])

/-- Exception-aware `remaining`, propagating any error from pruning. -/
def remainingE (bucket : List Time) (limit : ℤ) (window now : Time) :
    Except String (ℤ × List Time) :=
  match pruneE window now bucket with
  | .error e => .error e
  | .ok b => .ok (max 0 (limit - (b.length : ℤ)), b)

/-- Exception-aware `record_failure`, propagating any error from pruning. -/
def record_failureE (bucket : List Time) (window now : Time) :
    Except String (ℤ × List Time) :=
  match pruneE window now bucket with
  | .error e => .error e
  | .ok b => .ok ((((b ++ [now]).length : ℤ)), b ++ [now])

end RateLimit

namespace Upload

/-- Byte values (0 to 255) as read from an upload stream. -/
abbrev Byte := ℕ

/-- Model of a caller-provided file-like object: the underlying bytes, the
current read position, and a flag marking an unreadable stream (one whose
`read()` raises an exception). -/
structure MStream where
  data : List Byte
  pos : ℕ
  readFails : Bool

/-- Embedding of `stream.seek(p)`. -/
def mseek (s : MStream) (p : ℕ) : MStream := { s with pos := p }

/-- Embedding of `stream.seek(0, 2)` (seek to the end of the stream). -/
def mseekEnd (s : MStream) : MStream := { s with pos := s.data.length }

/-- Embedding of `stream.tell()`. -/
def mtell (s : MStream) : ℕ := s.pos

/-- Embedding of `stream.read(n)`: raises on an unreadable stream, otherwise
returns up to `n` bytes from the current position and advances it. -/
def mread (s : MStream) (n : ℕ) : Except String (List Byte) × MStream :=
  if s.readFails then (.error "IOError", s)
  else (.ok ((s.data.drop s.pos).take n),
        { s with pos := min (s.pos + n) s.data.length })

/-- Model of the optional python-magic capability: `magic.from_buffer(header,
mime=True)` as a function of the header bytes that returns a MIME string or
raises.  At the `validate_file_type` call site, `none` models `magic is None`
(the ImportError fallback in `security.py`). -/
def Sniffer : Type := List Byte → Except String (List Char)

/-- ALLOWED_EXTENSIONS from `config.py`. -/
def allowedExtensions : List (List Char) :=
  ["png".toList, "jpg".toList, "jpeg".toList,
   "gif".toList, "mp4".toList, "mov".toList]

/-- Python `str.lower()`, restricted to ASCII, which is all the checks use. -/
def lowerChars (s : List Char) : List Char := s.map Char.toLower

/-- Characters after the last dot: `filename.rsplit('.', 1)[1]` for a
filename containing a dot. -/
def extAfterLastDot (s : List Char) : List Char :=
  (s.reverse.takeWhile (fun c => c ≠ '.')).reverse

/-- Embedding of `allowed_file(filename)` from `security.py`. -/
def allowed_file (filename : List Char) : Bool :=
  decide ('.' ∈ filename) &&
    decide (lowerChars (extAfterLastDot filename) ∈ allowedExtensions)

/-- Python `startswith` on sequences. -/
def startswith {α : Type} [DecidableEq α] (pre s : List α) : Bool :=
  decide (pre <+: s)

/-- Python `endswith` on sequences. -/
def endswith {α : Type} [DecidableEq α] (suf s : List α) : Bool :=
  decide (suf <:+ s)

/-- Python `in` on byte strings: contiguous-subsequence containment. -/
def containsSeq {α : Type} [DecidableEq α] (pat s : List α) : Bool :=
  s.tails.any (fun t => startswith pat t)

/-- PNG signature: the bytes 89 50 4E 47 0D 0A 1A 0A. -/
def pngMagic : List Byte := [0x89, 0x50, 0x4E, 0x47, 0x0D, 0x0A, 0x1A, 0x0A]

/-- JPEG signature: the bytes FF D8 FF. -/
def jpgMagic : List Byte := [0xFF, 0xD8, 0xFF]

/-- GIF signature: the ASCII bytes of "GIF8". -/
def gifMagic : List Byte := [0x47, 0x49, 0x46, 0x38]

/-- ASCII bytes of "ftyp". -/
def ftypBytes : List Byte := [0x66, 0x74, 0x79, 0x70]

/-- ASCII bytes of "ftypqt". -/
def ftypqtBytes : List Byte := [0x66, 0x74, 0x79, 0x70, 0x71, 0x74]

/-- ASCII bytes of "qt  " (two trailing spaces). -/
def qtBytes : List Byte := [0x71, 0x74, 0x20, 0x20]

/-- Extension suffix ".png" tested by the signature chain. -/
def pngSuffix : List Char := ".png".toList

/-- Extension suffix ".jpg" tested by the signature chain. -/
def jpgSuffix : List Char := ".jpg".toList

/-- Extension suffix ".jpeg" tested by the signature chain. -/
def jpegSuffix : List Char := ".jpeg".toList

/-- Extension suffix ".gif" tested by the signature chain. -/
def gifSuffix : List Char := ".gif".toList

/-- Extension suffix ".mp4" tested by the signature chain. -/
def mp4Suffix : List Char := ".mp4".toList

/-- Extension suffix ".mov" tested by the signature chain. -/
def movSuffix : List Char := ".mov".toList

/-- MIME types accepted in the sniffing branch (each tested by startswith). -/
def allowedMimes : List (List Char) :=
  ["image/png".toList, "image/jpeg".toList, "image/gif".toList,
   "video/mp4".toList, "video/quicktime".toList]

/-- Embedding of `mime and (mime.startswith('image/png') or ...)`: an empty
(falsy) MIME string fails the test. -/
def mimeAccepts (mime : List Char) : Bool :=
  decide (mime ≠ []) && allowedMimes.any (fun p => startswith p mime)

/-- Outcome of the guarded sniffing block in `validate_file_type`: `false`
when magic is absent, when `magic.from_buffer` raises (the inner
`except Exception: pass`), or when the detected MIME type is outside the
allow-list; in all those cases control falls through to the signature checks. -/
def sniffAccepts (sniffer : Option Sniffer) (header : List Byte) : Bool :=
  match sniffer with
  | none => false
  | some f =>
    match f header with
    | .error _ => false
    | .ok mime => mimeAccepts mime

/-- Fallback signature checks of `validate_file_type`: the if/elif chain on
`name = filename.lower()`. -/
def signatureCheck (name : List Char) (header : List Byte) : Bool :=
  if endswith pngSuffix name then startswith pngMagic header
  else if endswith jpgSuffix name || endswith jpegSuffix name then
    startswith jpgMagic header
  else if endswith gifSuffix name then startswith gifMagic header
  else if endswith mp4Suffix name then containsSeq ftypBytes (header.take 256)
  else if endswith movSuffix name then
    containsSeq ftypqtBytes (header.take 256) || containsSeq qtBytes (header.take 256)
  else false

/-- Body of `validate_file_type(file_stream, filename)` up to the outer
try/except: a raised exception appears as `.error` in the first component,
paired with the stream state at the point of the raise. -/
def validate_file_type_core (sniffer : Option Sniffer) (filename : List Char)
    (s : MStream) : Except String Bool × MStream :=
  if !allowed_file filename then (.ok false, s)
  else
    let s1 := mseek s 0
    match mread s1 2048 with
    | (.error e, s2) => (.error e, s2)
    | (.ok header, s2) =>
      let s3 := mseek s2 0
      if sniffAccepts sniffer header then (.ok true, s3)
      else (.ok (signatureCheck (lowerChars filename) header), s3)

/-- Embedding of `validate_file_type`: the outer `except Exception:
return False` turns any raised exception into a `false` verdict. -/
def validate_file_type (sniffer : Option Sniffer) (filename : List Char)
    (s : MStream) : Bool × MStream :=
  match validate_file_type_core sniffer filename s with
  | (.ok b, s2) => (b, s2)
  | (.error _, s2) => (false, s2)

/-- MAX_CONTENT_LENGTH from `config.py` (10 MiB). -/
def MAX_CONTENT_LENGTH : ℕ := 10 * 1024 * 1024

/-- Embedding of `FileService.validate_file_size`: seek to the end, measure,
seek back to offset 0, compare against the configured maximum. -/
def validate_file_size (s : MStream) : Bool × MStream :=
  let s1 := mseekEnd s
  let size := mtell s1
  let s2 := mseek s1 0
  (decide (size ≤ MAX_CONTENT_LENGTH), s2)

/-- A sniffing capability whose `magic.from_buffer` always raises. -/
def raisingSniffer : Sniffer := fun _ => .error "MagicException"

/-- A sniffing capability that classifies every buffer as image/jpeg. -/
def jpegMimeSniffer : Sniffer := fun _ => .ok "image/jpeg".toList

end Upload

namespace Storage

/-- Whitespace recognized by Python `str.split()`. -/
def isPySpace (c : Char) : Bool :=
  c = ' ' || c = '\t' || c = '\n' || c = '\r' || c = '\x0b' || c = '\x0c'

/-- Characters kept by werkzeug's ASCII strip pattern — letters, digits,
underscore, dot, dash — stated on code points for easy reasoning. -/
def isSafeChar (c : Char) : Bool :=
  decide ((65 ≤ c.toNat ∧ c.toNat ≤ 90) ∨ (97 ≤ c.toNat ∧ c.toNat ≤ 122)
    ∨ (48 ≤ c.toNat ∧ c.toNat ≤ 57) ∨ c.toNat = 95 ∨ c.toNat = 46 ∨ c.toNat = 45)

/-- Characters stripped from both ends by Python `.strip("._")`. -/
def isStripChar (c : Char) : Bool := c = '.' || c = '_'

/-- Modelled from the spec: `werkzeug.utils.secure_filename` (an external
library, not part of this repository), which the spec describes as stripping
"the incoming filename to a filesystem-safe form (no path separators, no
control characters)".  Following werkzeug on POSIX for ASCII input: path
separators become spaces, whitespace-separated pieces are joined with
underscores, characters outside the class `[A-Za-z0-9_.-]` are removed, and
leading and trailing dots/underscores are stripped.  (Unicode NFKD
normalization and the Windows reserved-name special case are identity on
these inputs.) -/
def secure_filename (filename : List Char) : List Char :=
  let f1 := filename.map (fun c => if c = '/' then ' ' else c)
  let parts := (f1.splitOnP isPySpace).filter (fun q => q ≠ [])
  let f2 := List.intercalate ['_'] parts
  let f3 := f2.filter isSafeChar
  ((f3.dropWhile isStripChar).reverse.dropWhile isStripChar).reverse

/-- Modelled from the spec: `os.path.splitext` (POSIX flavor) of the Python
standard library (not part of this repository): splits off the extension at
the last dot of the final path component, unless the characters of that
component before this dot are all dots. -/
def splitext (p : List Char) : List Char × List Char :=
  let base := (p.reverse.takeWhile (fun c => c ≠ '/')).reverse
  let dir := p.take (p.length - base.length)
  if '.' ∈ base then
    let afterDot := (base.reverse.takeWhile (fun c => c ≠ '.')).reverse
    let pre := base.take (base.length - (afterDot.length + 1))
    if pre.any (fun c => c ≠ '.') then (dir ++ pre, '.' :: afterDot) else (p, [])
  else (p, [])

/-- Embedding of `secure_filename_with_id(filename, file_id)` from
`security.py`: sanitize the name, split off its extension, and return
`file_id + ext`. -/
def secure_filename_with_id (filename file_id : List Char) : List Char :=
  let f := secure_filename filename
  let e := splitext f
  file_id ++ e.2

end Storage

namespace RateLimit

theorem prune_eq_self_of_lb {window now : Time} {b : List Time}
    (h : ∀ t ∈ b, now - window ≤ t) : prune window now b = b := by
  cases b with
  | nil => rfl
  | cons t rest =>
    have ht : ¬ t < now - window := not_lt.mpr (h t (List.mem_cons_self t rest))
    simp [prune, ht]

theorem prune_sublist (window now : Time) (b : List Time) :
    (prune window now b).Sublist b := by
  induction b with
  | nil => simp [prune]
  | cons t rest ih =>
    by_cases h : t < now - window
    · simp only [prune, if_pos h]
      exact ih.trans (List.sublist_cons_self t rest)
    · simp only [prune, if_neg h]
      exact List.Sublist.refl _

theorem mem_of_mem_prune {window now : Time} {b : List Time} {t : Time}
    (h : t ∈ prune window now b) : t ∈ b :=
  (prune_sublist window now b).subset h

theorem prune_lower (window now : Time) :
    ∀ b : List Time, b.Sorted (· ≤ ·) → ∀ t ∈ prune window now b, now - window ≤ t := by
  intro b
  induction b with
  | nil => simp [prune]
  | cons a rest ih =>
    intro hsort
    rw [List.sorted_cons] at hsort
    by_cases h : a < now - window
    · simp only [prune, if_pos h]
      exact ih hsort.2
    · simp only [prune, if_neg h]
      intro t ht
      rcases List.mem_cons.mp ht with rfl | ht
      · exact not_lt.mp h
      · exact le_trans (not_lt.mp h) (hsort.1 t ht)

theorem prune_sorted {window now : Time} {b : List Time}
    (hsort : b.Sorted (· ≤ ·)) : (prune window now b).Sorted (· ≤ ·) :=
  hsort.sublist (prune_sublist window now b)

theorem prune_eq_filter (window now : Time) :
    ∀ b : List Time, b.Sorted (· ≤ ·) →
      prune window now b = b.filter (fun t => decide (now - window ≤ t)) := by
  intro b
  induction b with
  | nil => simp [prune]
  | cons a rest ih =>
    intro hsort
    rw [List.sorted_cons] at hsort
    by_cases h : a < now - window
    · have ha : (decide (now - window ≤ a)) = false := by
        simp [not_le.mpr h]
      simp only [prune, if_pos h, List.filter_cons, ha]
      simpa using ih hsort.2
    · have ha : (decide (now - window ≤ a)) = true := by
        simp [not_lt.mp h]
      have hrest : rest.filter (fun t => decide (now - window ≤ t)) = rest :=
        List.filter_eq_self.mpr fun x hx => by
          simp [le_trans (not_lt.mp h) (hsort.1 x hx)]
      simp only [prune, if_neg h, List.filter_cons, ha, if_pos, hrest]

theorem run_checks_results (limit : ℤ) (window : Time) :
    ∀ times bucket : List Time,
      (bucket ++ times).Sorted (· ≤ ·) →
      (∀ a ∈ bucket ++ times, ∀ c ∈ bucket ++ times, c - a ≤ window) →
      (run_checks limit window bucket times).1
        = (List.range times.length).map
            (fun (i : ℕ) => decide (((bucket.length : ℤ) + (i : ℤ)) < limit)) := by
  intro times
  induction times with
  | nil => intro bucket _ _; simp [run_checks]
  | cons now rest ih =>
    intro bucket hsort hspan
    have hmem_now : now ∈ bucket ++ now :: rest := by simp
    have hlb : ∀ t ∈ bucket, now - window ≤ t := by
      intro t ht
      have h1 := hspan t (by simp [ht]) now hmem_now
      linarith
    have hprune : prune window now bucket = bucket := prune_eq_self_of_lb hlb
    have hsub : List.Sublist (bucket ++ rest) (bucket ++ now :: rest) :=
      (List.sublist_cons_self now rest).append_left bucket
    by_cases hcap : (bucket.length : ℤ) ≥ limit
    · have hstep : check_rate_limit bucket limit window now = (false, bucket) := by
        simp [check_rate_limit, hprune, hcap]
      have ihr := ih bucket (hsort.sublist hsub)
        (fun a ha c hc => hspan a (hsub.subset ha) c (hsub.subset hc))
      simp only [run_checks, hstep, ihr, List.length_cons, List.range_succ_eq_map,
        List.map_cons, List.map_map, List.cons.injEq]
      constructor
      · simp only [Nat.cast_zero, add_zero]
        exact (decide_eq_false (not_lt.mpr hcap)).symm
      · apply List.map_congr_left
        intro i _
        simp only [Function.comp_apply]
        have h1 : ¬ ((bucket.length : ℤ) + (i : ℤ) < limit) := by omega
        have h2 : ¬ ((bucket.length : ℤ) + ((Nat.succ i : ℕ) : ℤ) < limit) := by
          push_cast
          omega
        rw [decide_eq_false h1, decide_eq_false h2]
    · have hstep : check_rate_limit bucket limit window now
          = (true, bucket ++ [now]) := by
        simp [check_rate_limit, hprune, hcap]
      have heq : (bucket ++ [now]) ++ rest = bucket ++ now :: rest := by
        rw [List.append_assoc, List.singleton_append]
      have ihr := ih (bucket ++ [now]) (by rw [heq]; exact hsort)
        (fun a ha c hc => hspan a (by rw [← heq]; exact ha) c (by rw [← heq]; exact hc))
      simp only [run_checks, hstep, ihr, List.length_cons, List.range_succ_eq_map,
        List.map_cons, List.map_map, List.cons.injEq]
      constructor
      · simp only [Nat.cast_zero, add_zero]
        exact (decide_eq_true (not_le.mp hcap)).symm
      · apply List.map_congr_left
        intro i _
        simp only [Function.comp_apply, List.length_append, List.length_singleton]
        rw [decide_eq_decide]
        push_cast
        omega

theorem pruneE_eq_ok (window now : Time) :
    ∀ b : List Time, pruneE window now b = Except.ok (prune window now b) := by
  intro b
  induction b with
  | nil => rfl
  | cons t rest ih =>
    by_cases h : t < now - window
    · simp only [pruneE, dequeHead, dequePopleft, prune, if_pos h]
      exact ih
    · simp only [pruneE, dequeHead, dequePopleft, prune, if_neg h]

/-- C1: `check_rate_limit` first prunes entries older than `now - window`; if
the pruned bucket already holds at least `limit` entries it returns `false`
without appending, otherwise it appends `now` and returns `true`.
Consequently, for calls at non-decreasing times all lying within one window of
each other, starting from a fresh bucket, exactly the first `limit` calls
return `true` and the rest `false` (three quick calls with limit 2 give
`[true, true, false]`; see the witness). -/
theorem check_rate_limit_first_n (limit : ℤ) (window : Time) (times : List Time)
    (hsorted : times.Sorted (· ≤ ·))
    (hspan : ∀ a ∈ times, ∀ c ∈ times, c - a ≤ window) :
    (run_checks limit window [] times).1
      = (List.range times.length).map (fun (i : ℕ) => decide ((i : ℤ) < limit))
    ∧ (∀ b now, limit ≤ ((prune window now b).length : ℤ) →
        check_rate_limit b limit window now = (false, prune window now b))
    ∧ (∀ b now, ((prune window now b).length : ℤ) < limit →
        check_rate_limit b limit window now = (true, prune window now b ++ [now])) := by
  refine ⟨?_, ?_, ?_⟩
  · have h := run_checks_results limit window times [] (by simpa using hsorted)
      (by simpa using hspan)
    simpa using h
  · intro b now hc
    simp [check_rate_limit, hc]
  · intro b now hc
    simp [check_rate_limit, not_le.mpr hc]

theorem check_rate_limit_first_n_witness :
    (run_checks 2 60 [] [(0 : ℚ), 0, 0]).1 = [true, true, false] := by
  have h := check_rate_limit_first_n 2 60 [(0 : ℚ), 0, 0]
    (by simp [List.sorted_cons])
    (by
      intro a ha c hc
      simp at ha hc
      subst ha
      subst hc
      norm_num)
  rw [h.1]
  decide

/-- C4: after any of the three operations at time `now`, with a nonnegative
window, on a sorted bucket whose entries all lie in the past (time is
non-decreasing across calls), every timestamp in the resulting bucket lies in
`[now - window, now]`, and the bucket is again sorted — so the invariant is
preserved by every operation. -/
theorem bucket_window_invariant (b : List Time) (limit : ℤ) (window now : Time)
    (hw : 0 ≤ window) (hsort : b.Sorted (· ≤ ·)) (hpast : ∀ t ∈ b, t ≤ now) :
    (∀ t ∈ (check_rate_limit b limit window now).2, now - window ≤ t ∧ t ≤ now)
    ∧ (check_rate_limit b limit window now).2.Sorted (· ≤ ·)
    ∧ (∀ t ∈ (remaining b limit window now).2, now - window ≤ t ∧ t ≤ now)
    ∧ (remaining b limit window now).2.Sorted (· ≤ ·)
    ∧ (∀ t ∈ (record_failure b window now).2, now - window ≤ t ∧ t ≤ now)
    ∧ (record_failure b window now).2.Sorted (· ≤ ·) := by
  have hlow := prune_lower window now b hsort
  have hup : ∀ t ∈ prune window now b, t ≤ now :=
    fun t ht => hpast t (mem_of_mem_prune ht)
  have hps : (prune window now b).Sorted (· ≤ ·) := prune_sorted hsort
  have happ : ∀ t ∈ prune window now b ++ [now], now - window ≤ t ∧ t ≤ now := by
    intro t ht
    rcases List.mem_append.mp ht with h | h
    · exact ⟨hlow t h, hup t h⟩
    · have := List.mem_singleton.mp h
      subst this
      exact ⟨by linarith, le_refl _⟩
  have happs : (prune window now b ++ [now]).Sorted (· ≤ ·) := by
    apply List.pairwise_append.mpr
    refine ⟨hps, List.pairwise_singleton _ _, ?_⟩
    intro a ha c hc
    have := List.mem_singleton.mp hc
    subst this
    exact hup a ha
  have hcheck2 : (check_rate_limit b limit window now).2 = prune window now b
      ∨ (check_rate_limit b limit window now).2 = prune window now b ++ [now] := by
    by_cases hcap : ((prune window now b).length : ℤ) ≥ limit
    · left; simp [check_rate_limit, hcap]
    · right; simp [check_rate_limit, hcap]
  have hrem2 : (remaining b limit window now).2 = prune window now b := by
    simp [remaining]
  have hrec2 : (record_failure b window now).2 = prune window now b ++ [now] := by
    simp [record_failure]
  refine ⟨?_, ?_, ?_, ?_, ?_, ?_⟩
  · rcases hcheck2 with h | h <;> rw [h]
    · exact fun t ht => ⟨hlow t ht, hup t ht⟩
    · exact happ
  · rcases hcheck2 with h | h <;> rw [h]
    · exact hps
    · exact happs
  · rw [hrem2]; exact fun t ht => ⟨hlow t ht, hup t ht⟩
  · rw [hrem2]; exact hps
  · rw [hrec2]; exact happ
  · rw [hrec2]; exact happs

theorem bucket_window_invariant_witness :
    (1 : ℚ) - 60 ≤ 0 ∧ (0 : ℚ) ≤ 1 :=
  (bucket_window_invariant [(0 : ℚ)] 1 60 1 (by norm_num) (by simp)
    (by
      intro t ht
      simp at ht
      subst ht
      norm_num)).1 0 (by norm_num [check_rate_limit, prune])

/-- C7: `record_failure` always appends a timestamp regardless of how full the
bucket is (no cap: the count strictly exceeds the pruned count), and its return
value is the post-increment number of in-window entries (under a nonnegative
window, sortedness and past-only entries, every entry of the new bucket is
in-window, so the returned length counts exactly the non-expired entries). -/
theorem record_failure_spec (b : List Time) (window now : Time)
    (hw : 0 ≤ window) (hsort : b.Sorted (· ≤ ·)) (hpast : ∀ t ∈ b, t ≤ now) :
    (record_failure b window now).2 = prune window now b ++ [now]
    ∧ (record_failure b window now).1 = ((prune window now b).length : ℤ) + 1
    ∧ ((prune window now b).length : ℤ) < (record_failure b window now).1
    ∧ (record_failure b window now).1
        = (((record_failure b window now).2.filter
            (fun t => decide (now - window ≤ t))).length : ℤ) := by
  have hlow := prune_lower window now b hsort
  have hfilter : (prune window now b ++ [now]).filter
      (fun t => decide (now - window ≤ t)) = prune window now b ++ [now] := by
    apply List.filter_eq_self.mpr
    intro x hx
    rcases List.mem_append.mp hx with h | h
    · exact decide_eq_true (hlow x h)
    · have := List.mem_singleton.mp h
      subst this
      exact decide_eq_true (by linarith)
  refine ⟨by simp [record_failure], by simp [record_failure], ?_, ?_⟩
  · simp only [record_failure, List.length_append, List.length_singleton]
    push_cast
    omega
  · have h2 : (record_failure b window now).2 = prune window now b ++ [now] := by
      simp [record_failure]
    rw [h2, hfilter]
    simp [record_failure]

theorem record_failure_spec_witness :
    (Questlab.RateLimit.record_failure [(0 : ℚ), 0, 0] 60 0).1 = 4 := by
  have h := record_failure_spec [(0 : ℚ), 0, 0] 60 0 (by norm_num)
    (by simp [List.sorted_cons])
    (by
      intro t ht
      simp at ht
      subst ht
      norm_num)
  rw [h.2.1]
  norm_num [prune]

/-- C8: `remaining` returns `max 0 (limit - count)` where `count` is the number
of non-expired entries, leaves the bucket pruned but appends nothing (the
resulting bucket is a sublist of the old one), and is non-increasing across a
successful `check_rate_limit` call queried again later within the window (no
entry having aged out in between). -/
theorem remaining_spec (b : List Time) (limit : ℤ) (window now now2 : Time)
    (hsort : b.Sorted (· ≤ ·)) :
    (remaining b limit window now).1
      = max 0 (limit - ((b.filter (fun t => decide (now - window ≤ t))).length : ℤ))
    ∧ (remaining b limit window now).2 = prune window now b
    ∧ (remaining b limit window now).2.Sublist b
    ∧ (∀ b1, check_rate_limit b limit window now = (true, b1) →
        (∀ t ∈ b1, now2 - window ≤ t) →
        (remaining b1 limit window now2).1 ≤ (remaining b limit window now).1) := by
  refine ⟨?_, by simp [remaining], ?_, ?_⟩
  · simp [remaining, prune_eq_filter window now b hsort]
  · simp only [remaining]
    exact prune_sublist window now b
  · intro b1 hchk hin
    by_cases hcap : ((prune window now b).length : ℤ) ≥ limit
    · exfalso
      simp [check_rate_limit, hcap] at hchk
    · have hb1 : b1 = prune window now b ++ [now] := by
        simp [check_rate_limit, hcap] at hchk
        exact hchk.symm
      subst hb1
      have hp1 : prune window now2 (prune window now b ++ [now])
          = prune window now b ++ [now] := prune_eq_self_of_lb hin
      simp only [remaining, hp1, List.length_append, List.length_singleton]
      push_cast
      omega

theorem remaining_spec_witness :
    (Questlab.RateLimit.remaining [(0 : ℚ)] 2 60 0).1 = 1 := by
  have h := remaining_spec [(0 : ℚ)] 2 60 0 0 (by simp)
  rw [h.1]
  norm_num [List.filter_cons]

/-- C9: none of the rate-limiter operations can raise an exception: with deque
indexing modelled as fallible, pruning and all three operations always return
successfully and agree with the total functions; exhaustion of the budget shows
up only as the ordinary return values `false` (check) and `0` (remaining). -/
theorem rate_limiter_total (b : List Time) (limit : ℤ) (window now : Time) :
    pruneE window now b = Except.ok (prune window now b)
    ∧ check_rate_limitE b limit window now
        = Except.ok (check_rate_limit b limit window now)
    ∧ remainingE b limit window now = Except.ok (remaining b limit window now)
    ∧ record_failureE b window now = Except.ok (record_failure b window now)
    ∧ (limit ≤ ((prune window now b).length : ℤ) →
        (check_rate_limit b limit window now).1 = false
        ∧ (remaining b limit window now).1 = 0) := by
  refine ⟨pruneE_eq_ok window now b, ?_, ?_, ?_, ?_⟩
  · simp only [check_rate_limitE, pruneE_eq_ok, check_rate_limit]
    by_cases hcap : ((prune window now b).length : ℤ) ≥ limit <;> simp [hcap]
  · simp only [remainingE, pruneE_eq_ok, remaining]
  · simp only [record_failureE, pruneE_eq_ok, record_failure]
  · intro h
    constructor
    · simp [check_rate_limit, h]
    · simp only [remaining]
      omega

theorem rate_limiter_total_witness :
    (Questlab.RateLimit.check_rate_limit [] 0 0 0).1 = false
    ∧ (Questlab.RateLimit.remaining [] 0 0 0).1 = 0 :=
  (rate_limiter_total [] 0 0 0).2.2.2.2 (by decide)

end RateLimit

namespace Upload

theorem suffix_total {s1 s2 name : List Char}
    (h1 : s1 <:+ name) (h2 : s2 <:+ name) : s1 <:+ s2 ∨ s2 <:+ s1 := by
  obtain ⟨t, ht⟩ := h1
  obtain ⟨u, hu⟩ := h2
  have he : t ++ s1 = u ++ s2 := by rw [ht, hu]
  rcases List.append_eq_append_iff.mp he with ⟨m, _, hm⟩ | ⟨m, _, hm⟩
  · exact Or.inr ⟨m, hm.symm⟩
  · exact Or.inl ⟨m, hm.symm⟩

theorem endswith_excl {s1 s2 name : List Char}
    (h : endswith s1 name = true) (hno : ¬ (s1 <:+ s2 ∨ s2 <:+ s1)) :
    endswith s2 name = false := by
  rw [endswith, decide_eq_true_eq] at h
  rw [endswith, decide_eq_false_iff_not]
  intro h2
  exact hno (suffix_total h h2)

/-- C2: when the content decision falls back to signature matching (no
sniffing capability, a sniffing failure, or a detected type outside the
allow-list — exactly when `sniffAccepts` is false), a readable stream whose
filename has an allowed extension is accepted iff the extension-specific
signature holds: `.png` needs the 8-byte PNG magic at the start, `.jpg` and
`.jpeg` need FF D8 FF, `.gif` needs "GIF8", `.mp4` needs "ftyp" within the
first 256 header bytes, `.mov` needs "ftypqt" or "qt  " there, and a name
matching none of these suffixes is rejected.  In particular a file named
"x.png" whose bytes do not start with the PNG magic is rejected (witness). -/
theorem fallback_signature_decision (sniffer : Option Sniffer)
    (filename : List Char) (s : MStream)
    (hread : s.readFails = false)
    (hallow : allowed_file filename = true)
    (hsniff : sniffAccepts sniffer (s.data.take 2048) = false) :
    (validate_file_type sniffer filename s).1
      = signatureCheck (lowerChars filename) (s.data.take 2048)
    ∧ (∀ name header, endswith pngSuffix name = true →
        signatureCheck name header = startswith pngMagic header)
    ∧ (∀ name header,
        endswith jpgSuffix name = true ∨ endswith jpegSuffix name = true →
        signatureCheck name header = startswith jpgMagic header)
    ∧ (∀ name header, endswith gifSuffix name = true →
        signatureCheck name header = startswith gifMagic header)
    ∧ (∀ name header, endswith mp4Suffix name = true →
        signatureCheck name header = containsSeq ftypBytes (header.take 256))
    ∧ (∀ name header, endswith movSuffix name = true →
        signatureCheck name header
          = (containsSeq ftypqtBytes (header.take 256)
              || containsSeq qtBytes (header.take 256)))
    ∧ (∀ name header,
        endswith pngSuffix name = false →
        endswith jpgSuffix name = false →
        endswith jpegSuffix name = false →
        endswith gifSuffix name = false →
        endswith mp4Suffix name = false →
        endswith movSuffix name = false →
        signatureCheck name header = false) := by
  refine ⟨?_, ?_, ?_, ?_, ?_, ?_, ?_⟩
  · simp only [validate_file_type, validate_file_type_core, hallow, Bool.not_true,
      Bool.false_eq_true, if_false, mseek, mread, hread, List.drop_zero, hsniff,
      Bool.false_eq_true, if_false]
  · intro name header hpng
    simp [signatureCheck, hpng]
  · intro name header hj
    rcases hj with hj | hj
    · have h1 := endswith_excl hj (show ¬ (jpgSuffix <:+ pngSuffix
        ∨ pngSuffix <:+ jpgSuffix) by decide)
      simp [signatureCheck, h1, hj]
    · have h1 := endswith_excl hj (show ¬ (jpegSuffix <:+ pngSuffix
        ∨ pngSuffix <:+ jpegSuffix) by decide)
      simp [signatureCheck, h1, hj]
  · intro name header hg
    have h1 := endswith_excl hg (show ¬ (gifSuffix <:+ pngSuffix
      ∨ pngSuffix <:+ gifSuffix) by decide)
    have h2 := endswith_excl hg (show ¬ (gifSuffix <:+ jpgSuffix
      ∨ jpgSuffix <:+ gifSuffix) by decide)
    have h3 := endswith_excl hg (show ¬ (gifSuffix <:+ jpegSuffix
      ∨ jpegSuffix <:+ gifSuffix) by decide)
    simp [signatureCheck, h1, h2, h3, hg]
  · intro name header hm
    have h1 := endswith_excl hm (show ¬ (mp4Suffix <:+ pngSuffix
      ∨ pngSuffix <:+ mp4Suffix) by decide)
    have h2 := endswith_excl hm (show ¬ (mp4Suffix <:+ jpgSuffix
      ∨ jpgSuffix <:+ mp4Suffix) by decide)
    have h3 := endswith_excl hm (show ¬ (mp4Suffix <:+ jpegSuffix
      ∨ jpegSuffix <:+ mp4Suffix) by decide)
    have h4 := endswith_excl hm (show ¬ (mp4Suffix <:+ gifSuffix
      ∨ gifSuffix <:+ mp4Suffix) by decide)
    simp [signatureCheck, h1, h2, h3, h4, hm]
  · intro name header hv
    have h1 := endswith_excl hv (show ¬ (movSuffix <:+ pngSuffix
      ∨ pngSuffix <:+ movSuffix) by decide)
    have h2 := endswith_excl hv (show ¬ (movSuffix <:+ jpgSuffix
      ∨ jpgSuffix <:+ movSuffix) by decide)
    have h3 := endswith_excl hv (show ¬ (movSuffix <:+ jpegSuffix
      ∨ jpegSuffix <:+ movSuffix) by decide)
    have h4 := endswith_excl hv (show ¬ (movSuffix <:+ gifSuffix
      ∨ gifSuffix <:+ movSuffix) by decide)
    have h5 := endswith_excl hv (show ¬ (movSuffix <:+ mp4Suffix
      ∨ mp4Suffix <:+ movSuffix) by decide)
    simp [signatureCheck, h1, h2, h3, h4, h5, hv]
  · intro name header h1 h2 h3 h4 h5 h6
    simp [signatureCheck, h1, h2, h3, h4, h5, h6]

theorem fallback_signature_decision_witness :
    (validate_file_type none "x.png".toList ⟨[1, 2, 3], 0, false⟩).1 = false := by
  have h := fallback_signature_decision none "x.png".toList ⟨[1, 2, 3], 0, false⟩
    rfl (by decide) rfl
  rw [h.1]
  decide

/-- C3 counterexample: with a sniffer that raises on every buffer, a
PNG-named stream carrying a valid PNG signature is still accepted, so an
exception during sniffing does not make `validate_file_type` return false. -/
theorem sniff_failure_can_accept :
    raisingSniffer ((pngMagic ++ [0, 0]).take 2048) = Except.error "MagicException"
    ∧ (validate_file_type (some raisingSniffer) "x.png".toList
        ⟨pngMagic ++ [0, 0], 0, false⟩).1 = true := by
  constructor
  · rfl
  · decide

/-- C3 (amended): exceptions during inspection never escape, and reading
failures are fail-closed: an unreadable stream yields `false`; a sniffing
failure is swallowed by the inner handler and validation falls back to the
signature checks, behaving exactly as when the sniffing capability is absent
(so it may still accept); the core can raise only on a stream-read failure,
and any raise is converted to `false` at the public boundary. -/
theorem validate_never_raises (sniffer : Option Sniffer) (filename : List Char)
    (s : MStream) (e : String) :
    (s.readFails = true → (validate_file_type sniffer filename s).1 = false)
    ∧ validate_file_type (some (fun _ => Except.error e)) filename s
        = validate_file_type none filename s
    ∧ (s.readFails = false →
        ∃ b, (validate_file_type_core sniffer filename s).1 = Except.ok b)
    ∧ (∀ msg, (validate_file_type_core sniffer filename s).1 = Except.error msg →
        (validate_file_type sniffer filename s).1 = false) := by
  by_cases ha : allowed_file filename
  · by_cases hr : s.readFails
    · refine ⟨fun _ => ?_, ?_, fun hc => absurd hr (by simp [hc]), fun msg _ => ?_⟩ <;>
        simp [validate_file_type, validate_file_type_core, mread, mseek, ha, hr]
    · have hr2 : s.readFails = false := by simp [hr]
      refine ⟨fun hc => absurd hc (by simp [hr2]), ?_, fun _ => ?_, fun msg hmsg => ?_⟩
      · simp [validate_file_type, validate_file_type_core, mread, mseek, ha, hr2,
          sniffAccepts]
      · cases hsn : sniffAccepts sniffer (s.data.take 2048) <;>
          simp [validate_file_type_core, mread, mseek, ha, hr2, hsn]
      · exfalso
        cases hsn : sniffAccepts sniffer (s.data.take 2048) <;>
          simp [validate_file_type_core, mread, mseek, ha, hr2, hsn] at hmsg
  · refine ⟨fun _ => ?_, ?_, fun _ => ⟨false, ?_⟩, fun msg hmsg => ?_⟩
    · simp [validate_file_type, validate_file_type_core, ha]
    · simp [validate_file_type, validate_file_type_core, ha]
    · simp [validate_file_type_core, ha]
    · exfalso
      simp [validate_file_type_core, ha] at hmsg

theorem validate_never_raises_witness :
    (validate_file_type none "x.png".toList ⟨pngMagic, 3, true⟩).1 = false :=
  (validate_never_raises none "x.png".toList ⟨pngMagic, 3, true⟩ "").1 rfl

/-- C5 counterexample: neither function preserves the entry read position —
called at position 5 (resp. 1) each returns with the position at 0. -/
theorem stream_position_not_preserved :
    (validate_file_type none "x.png".toList ⟨pngMagic, 5, false⟩).2.pos = 0
    ∧ (5 : ℕ) ≠ 0
    ∧ (validate_file_size ⟨[0], 1, false⟩).2.pos = 0
    ∧ (1 : ℕ) ≠ 0 := by decide

/-- C5 (amended): rather than preserving an arbitrary entry position, every
run of `validate_file_type` that passes the extension gate leaves the read
position at 0 (the early extension-reject path never touches the stream), and
`validate_file_size` always leaves it at 0; neither modifies the stream's
bytes.  The entry position is therefore restored exactly when it was 0. -/
theorem stream_position_after (sniffer : Option Sniffer) (filename : List Char)
    (s : MStream) :
    ((validate_file_type sniffer filename s).2.pos
        = if allowed_file filename then 0 else s.pos)
    ∧ (validate_file_type sniffer filename s).2.data = s.data
    ∧ (validate_file_type sniffer filename s).2.readFails = s.readFails
    ∧ (validate_file_size s).2.pos = 0
    ∧ (validate_file_size s).2.data = s.data := by
  have hsize : (validate_file_size s).2 = mseek (mseekEnd s) 0 := rfl
  by_cases ha : allowed_file filename
  · by_cases hr : s.readFails
    · refine ⟨?_, ?_, ?_, ?_, ?_⟩ <;>
        simp [validate_file_type, validate_file_type_core, mread, mseek, mseekEnd,
          validate_file_size, ha, hr]
    · have hr2 : s.readFails = false := by simp [hr]
      cases hsn : sniffAccepts sniffer (s.data.take 2048) <;>
        refine ⟨?_, ?_, ?_, ?_, ?_⟩ <;>
          simp [validate_file_type, validate_file_type_core, mread, mseek, mseekEnd,
            validate_file_size, ha, hr2, hsn]
  · refine ⟨?_, ?_, ?_, ?_, ?_⟩ <;>
      simp [validate_file_type, validate_file_type_core, mseek, mseekEnd,
        validate_file_size, ha]

/-- C10: when the sniffing capability is available and classifies the header
as any one of the five allow-listed MIME types, `validate_file_type` accepts
every filename whose extension passes `allowed_file`, with no requirement
that the detected type agree with the extension (the witness accepts a file
named "x.png" whose bytes sniff as image/jpeg). -/
theorem sniff_accepts_any_allowed_name (f : Sniffer) (mime : List Char)
    (filename : List Char) (s : MStream)
    (hread : s.readFails = false)
    (hallow : allowed_file filename = true)
    (hf : f (s.data.take 2048) = Except.ok mime)
    (hm : mimeAccepts mime = true) :
    (validate_file_type (some f) filename s).1 = true
    ∧ sniffAccepts (some f) (s.data.take 2048) = true := by
  have hsn : sniffAccepts (some f) (s.data.take 2048) = true := by
    simp only [sniffAccepts, hf]
    exact hm
  refine ⟨?_, hsn⟩
  simp only [validate_file_type, validate_file_type_core, hallow, Bool.not_true,
    Bool.false_eq_true, if_false, mseek, mread, hread, List.drop_zero, hsn, if_true]

theorem sniff_accepts_any_allowed_name_witness :
    (validate_file_type (some jpegMimeSniffer) "x.png".toList
      ⟨[0, 1, 2], 0, false⟩).1 = true :=
  (sniff_accepts_any_allowed_name jpegMimeSniffer "image/jpeg".toList
    "x.png".toList ⟨[0, 1, 2], 0, false⟩ rfl (by decide) rfl (by decide)).1

end Upload

namespace Storage

theorem isSafeChar_props {c : Char} (h : isSafeChar c = true) :
    c ≠ '/' ∧ c ≠ '\\' ∧ 31 < c.toNat ∧ c.toNat ≠ 127 := by
  rw [isSafeChar, decide_eq_true_eq] at h
  have h47 : c.toNat ≠ 47 := by omega
  have h92 : c.toNat ≠ 92 := by omega
  refine ⟨?_, ?_, by omega, by omega⟩
  · intro hc
    exact h47 (by rw [hc]; rfl)
  · intro hc
    exact h92 (by rw [hc]; rfl)

theorem secure_filename_safe (filename : List Char) :
    ∀ c ∈ secure_filename filename, isSafeChar c = true := by
  intro c hc
  simp only [secure_filename] at hc
  rw [List.mem_reverse] at hc
  have hc2 := List.dropWhile_subset isStripChar hc
  rw [List.mem_reverse] at hc2
  have hc3 := List.dropWhile_subset isStripChar hc2
  exact List.of_mem_filter hc3

theorem splitext_ext_mem (p : List Char) :
    ∀ c ∈ (splitext p).2, c = '.' ∨ c ∈ p := by
  intro c hc
  simp only [splitext] at hc
  split at hc
  · split at hc
    · rcases List.mem_cons.mp hc with rfl | hc
      · exact Or.inl rfl
      · right
        rw [List.mem_reverse] at hc
        have h1 := List.takeWhile_subset (fun c => c ≠ '.') hc
        rw [List.mem_reverse] at h1
        rw [List.mem_reverse] at h1
        have h2 := List.takeWhile_subset (fun c => c ≠ '/') h1
        rw [List.mem_reverse] at h2
        exact h2
    · simp at hc
  · simp at hc

/-- C6: the storage-name builder returns the generated id followed by the
sanitized extension of the original filename; provided the caller-generated id
itself contains no path separators or control characters, the whole storage
name contains none (the extension part never can, since sanitization keeps
only characters in `[A-Za-z0-9_.-]`).  The witness instantiates the spec's
example: sanitizing "../../etc/passwd.png" with id "abc123" yields
"abc123.png". -/
theorem storage_name_spec (filename file_id : List Char)
    (hid : ∀ c ∈ file_id, c ≠ '/' ∧ c ≠ '\\' ∧ 31 < c.toNat ∧ c.toNat ≠ 127) :
    secure_filename_with_id filename file_id
      = file_id ++ (splitext (secure_filename filename)).2
    ∧ (∀ c ∈ secure_filename_with_id filename file_id,
        c ≠ '/' ∧ c ≠ '\\' ∧ 31 < c.toNat ∧ c.toNat ≠ 127) := by
  refine ⟨rfl, ?_⟩
  intro c hc
  simp only [secure_filename_with_id] at hc
  rcases List.mem_append.mp hc with h | h
  · exact hid c h
  · rcases splitext_ext_mem (secure_filename filename) c h with rfl | h2
    · exact ⟨by decide, by decide, by decide, by decide⟩
    · exact isSafeChar_props (secure_filename_safe filename c h2)

theorem storage_name_spec_witness :
    secure_filename_with_id "../../etc/passwd.png".toList "abc123".toList
      = "abc123".toList
        ++ (splitext (secure_filename "../../etc/passwd.png".toList)).2
    ∧ secure_filename_with_id "../../etc/passwd.png".toList "abc123".toList
      = "abc123.png".toList := by
  have h := storage_name_spec "../../etc/passwd.png".toList "abc123".toList
    (by decide)
  exact ⟨h.1, by decide⟩

end Storage

end Questlab
